import Mathlib

/-!
Shallow embedding of the storm-event processing pipeline
(`src/processing.py`) and verification of its specification.

Python strings are modelled as `List Char`; Python numbers (ints and
floats) are modelled exactly as `Rat`.  A Python function that can raise
is modelled as returning `Except PyErr _`.  The pandas / geopandas
operations used by `merge_intersect` are modelled as list operations with
the same row-level semantics: `DataFrame.merge` (inner join on a key),
`gpd.sjoin` with the `intersects` predicate (inner spatial join),
`groupby(...).sum()` (one output row per distinct key present, holding
the group sum) and `groupby('id')['mag'].idxmax()` followed by `.loc`
(the first row attaining the per-group maximum).  Row order of the
embedded operations may differ from pandas ordering; no claim depends on
row order.
-/

/-- The two kinds of exception `expand_value` can raise: `ValueError`
from the builtin `float` on an unparsable numeral, and the explicit
`RuntimeError(value)` of line 50 of the source. -/
inductive PyErr where
  | valueError : PyErr
  | runtimeError : List Char → PyErr
deriving DecidableEq

deriving instance DecidableEq for Except

/-- Numeric value of a decimal digit character. -/
def digVal (c : Char) : Nat := c.toNat - 48

/-- Value of a digit string read in base 10. -/
def natVal (l : List Char) : Nat := l.foldl (fun a c => 10 * a + digVal c) 0

/-- All characters are decimal digits. -/
def isDigits (l : List Char) : Bool := l.all Char.isDigit

/-- Characters before the first dot. -/
def intPart (s : List Char) : List Char := s.takeWhile (fun c => !(c == '.'))

/-- Characters after the first dot. -/
def fracPart (s : List Char) : List Char := (s.dropWhile (fun c => !(c == '.'))).tail

/-- Model of Python `float()` on an unsigned decimal numeral: an optional
single dot with digits around it, at least one digit in total.  The model
covers plain decimal numerals, the format of the damage magnitudes;
exponent forms, underscores, surrounding whitespace and `inf`/`nan`
spellings of `float` are outside the model.  Returns `none` where `float`
raises `ValueError`. -/
def pyNum (s : List Char) : Option Rat :=
  if s.any (fun c => c == '.') then
    if (intPart s ≠ [] ∨ fracPart s ≠ []) ∧ isDigits (intPart s) ∧ isDigits (fracPart s) then
      some ((natVal (intPart s) : Rat) +
        (natVal (fracPart s) : Rat) / ((10 : Rat) ^ (fracPart s).length))
    else none
  else
    if s ≠ [] ∧ isDigits s then some ((natVal s : Rat)) else none

/-- Model of Python `float()`: an optional sign in front of a numeral. -/
def pyFloat (s : List Char) : Option Rat :=
  match s with
  | [] => none
  | c :: rest =>
      if c = '-' then (pyNum rest).map (fun x => -x)
      else if c = '+' then pyNum rest
      else pyNum (c :: rest)

/-- Embedding of `expand_value` (src/processing.py lines 38-50).  The
argument is the string form of the raw cell (pandas renders an absent
cell as the string `nan`, so `str(value)` of line 40 yields `nan` there
and is the identity on proper strings).  Mirrors the source line by
line: the zero-sentinel / single-character check of line 41, then the
`M`, `K`, `B` suffix branches of lines 43-48 (`value.endswith(c)` on a
one-character suffix is a test on the last character, `value[:-1]` is
`dropLast`), else `RuntimeError(value)` of line 50. -/
def expand_value (value : List Char) : Except PyErr Rat :=
  if value = ['n', 'a', 'n'] ∨ value = ['0'] ∨ value = ['0', '.', '0', '0'] ∨
      value.length = 1 then
    Except.ok 0
  else if value.getLast? = some 'M' then
    match pyFloat value.dropLast with
    | some x => Except.ok (x * 1000000)
    | none => Except.error PyErr.valueError
  else if value.getLast? = some 'K' then
    match pyFloat value.dropLast with
    | some x => Except.ok (x * 1000)
    | none => Except.error PyErr.valueError
  else if value.getLast? = some 'B' then
    match pyFloat value.dropLast with
    | some x => Except.ok (x * 1000000000)
    | none => Except.error PyErr.valueError
  else Except.error (PyErr.runtimeError value)

/-- A row of `locations_all.csv` restricted to the fields the pipeline
keeps (`FIELD_DICT['locations']`). -/
structure EventLocation where
  event_id : Nat
  latitude : Rat
  longitude : Rat
deriving DecidableEq

/-- A row of `details_all.csv` restricted to the fields the pipeline
keeps (`FIELD_DICT['details']`); `damage_property` is still the raw
encoded string at this stage. -/
structure EventDetail where
  event_id : Nat
  event_type : List Char
  damage_property : List Char
deriving DecidableEq

/-- A row of `pts.merge(details, on='EVENT_ID')`: all the location
fields plus the non-key detail fields. -/
structure JoinedEvent where
  loc : EventLocation
  event_type : List Char
  damage_property : List Char
deriving DecidableEq

/-- Embedding of `pts.merge(details, on='EVENT_ID', suffixes=('_p', '_d'))`
(line 74): an inner join producing one row per cross pairing of a
location row and a detail row with equal `event_id`.  (No column of the
selected field sets collides, so the suffixes never fire.) -/
def merge (pts : List EventLocation) (details : List EventDetail) : List JoinedEvent :=
  pts.flatMap fun p =>
    (details.filter fun d => decide (d.event_id = p.event_id)).map fun d =>
      ⟨p, d.event_type, d.damage_property⟩

/-- A georeferenced point, `(x, y)` with exact rational coordinates. -/
abbrev Pt := Rat × Rat

/-- Cross product of `a - o` and `b - o`. -/
def cross (o a b : Pt) : Rat :=
  (a.1 - o.1) * (b.2 - o.2) - (a.2 - o.2) * (b.1 - o.1)

/-- The point `p` lies on the closed segment from `a` to `b`. -/
def onSeg (a b p : Pt) : Prop :=
  cross a b p = 0 ∧ min a.1 b.1 ≤ p.1 ∧ p.1 ≤ max a.1 b.1 ∧
    min a.2 b.2 ≤ p.2 ∧ p.2 ≤ max a.2 b.2

instance decOnSeg (a b p : Pt) : Decidable (onSeg a b p) := by
  unfold onSeg; infer_instance

/-- The boundary edges of a polygon ring given by its vertex list. -/
def edges (poly : List Pt) : List (Pt × Pt) := poly.zip (poly.rotate 1)

/-- The point lies on the polygon's boundary. -/
def onBoundary (poly : List Pt) (p : Pt) : Prop := ∃ e ∈ edges poly, onSeg e.1 e.2 p

instance decOnBoundary (poly : List Pt) (p : Pt) : Decidable (onBoundary poly p) := by
  unfold onBoundary; infer_instance

/-- The horizontal ray from `p` to the right crosses the edge `e`
(standard half-open crossing rule of the even-odd point-in-polygon
test). -/
def raycross (p : Pt) (e : Pt × Pt) : Prop :=
  ((e.1.2 ≤ p.2 ∧ p.2 < e.2.2) ∨ (e.2.2 ≤ p.2 ∧ p.2 < e.1.2)) ∧
  p.1 < e.1.1 + (e.2.1 - e.1.1) * (p.2 - e.1.2) / (e.2.2 - e.1.2)

instance decRaycross (p : Pt) (e : Pt × Pt) : Decidable (raycross p e) := by
  unfold raycross; infer_instance

/-- The point is strictly inside the polygon: the rightward ray crosses
the boundary an odd number of times. -/
def inInterior (poly : List Pt) (p : Pt) : Prop :=
  ((edges poly).countP (fun e => decide (raycross p e))) % 2 = 1

instance decInInterior (poly : List Pt) (p : Pt) : Decidable (inInterior poly p) := by
  unfold inInterior; infer_instance

/-- Model of the GEOS `intersects` predicate between a polygon and a
point, as used by `gpd.sjoin(..., predicate="intersects")` (line 82):
the point touches the boundary or lies in the interior. -/
def intersects (poly : List Pt) (p : Pt) : Prop := onBoundary poly p ∨ inInterior poly p

instance decIntersects (poly : List Pt) (p : Pt) : Decidable (intersects poly p) := by
  unfold intersects; infer_instance

/-- A joined event after `expand_value` has replaced the raw damage
string by its numeric value (line 75). -/
structure NormalizedEvent where
  event_id : Nat
  latitude : Rat
  longitude : Rat
  event_type : List Char
  damage_property : Rat
deriving DecidableEq

/-- A row of the region grid `conus_grid.gpkg` restricted to
`['id', 'geometry']` (line 72). -/
structure RegionPolygon where
  id : Nat
  geometry : List Pt
deriving DecidableEq

/-- A row of `gpd.sjoin(gdf_points, states, ...)`: the event columns
plus the `id` of the matched region. -/
structure LocatedEvent where
  event : NormalizedEvent
  region_id : Nat
deriving DecidableEq

/-- The event's point geometry, `points_from_xy(LONGITUDE, LATITUDE)`
(line 78). -/
def eventPt (e : NormalizedEvent) : Pt := (e.longitude, e.latitude)

/-- Embedding of `gpd.sjoin(gdf_points, states, how="inner",
predicate="intersects")` (line 82): one output row per (event, region)
pair whose geometries intersect. -/
def sjoin (events : List NormalizedEvent) (regions : List RegionPolygon) :
    List LocatedEvent :=
  events.flatMap fun e =>
    (regions.filter fun r => decide (intersects r.geometry (eventPt e))).map fun r =>
      ⟨e, r.id⟩

/-- A row of the aggregated frame of line 84: `id`, `EVENT_TYPE` and the
summed magnitude `mag`. -/
structure RegionCategoryTotal where
  region_id : Nat
  event_type : List Char
  mag : Rat
deriving DecidableEq

/-- The grouping key `(id, EVENT_TYPE)` of a located event. -/
def locKey (l : LocatedEvent) : Nat × List Char := (l.region_id, l.event.event_type)

/-- Sum of `DAMAGE_PROPERTY` over the located events with grouping key `k`. -/
def groupMag (located : List LocatedEvent) (k : Nat × List Char) : Rat :=
  ((located.filter fun l => decide (locKey l = k)).map
    fun l => l.event.damage_property).sum

/-- Embedding of
`intersected.groupby(['id', 'EVENT_TYPE'])['DAMAGE_PROPERTY'].sum()`
(line 84): one row per distinct key present, holding the group sum.
(pandas emits groups in sorted key order; this embedding uses
first-occurrence order, which no claim distinguishes.) -/
def aggregate (located : List LocatedEvent) : List RegionCategoryTotal :=
  ((located.map locKey).dedup).map fun k => ⟨k.1, k.2, groupMag located k⟩

/-- The `(id, EVENT_TYPE)` key of an aggregated row. -/
def rctKey (r : RegionCategoryTotal) : Nat × List Char := (r.region_id, r.event_type)

/-- Fold step of `idxmax`: keep the current best row, replacing it only
when a strictly larger `mag` appears (so the first occurrence of the
maximum wins, exactly pandas `idxmax` tie behavior). -/
def pickMax (b : RegionCategoryTotal) : List RegionCategoryTotal → RegionCategoryTotal
  | [] => b
  | r :: rest => pickMax (if b.mag < r.mag then r else b) rest

/-- The first row of the list attaining the maximal `mag`, `none` on the
empty list. -/
def firstMax : List RegionCategoryTotal → Option RegionCategoryTotal
  | [] => none
  | r :: rest => some (pickMax r rest)

/-- Embedding of
`aggregated_df.loc[aggregated_df.groupby('id')['mag'].idxmax()]`
(line 85): for every region id present, the first row of its group with
maximal `mag`. -/
def select_dominant (totals : List RegionCategoryTotal) : List RegionCategoryTotal :=
  ((totals.map RegionCategoryTotal.region_id).dedup).filterMap fun rid =>
    firstMax (totals.filter fun r => decide (r.region_id = rid))

/-- The category label `Hail` of the worked examples. -/
def hailStr : List Char := ['H', 'a', 'i', 'l']

/-- The category label `Flood` of the worked examples. -/
def floodStr : List Char := ['F', 'l', 'o', 'o', 'd']

/-- Unit-square region with id 0, used by the boundary fan-out example. -/
def regionA : RegionPolygon := ⟨0, [(0, 0), (1, 0), (1, 1), (0, 1)]⟩

/-- Unit-square region with id 1, sharing the edge `x = 1` with
`regionA`. -/
def regionB : RegionPolygon := ⟨1, [(1, 0), (2, 0), (2, 1), (1, 1)]⟩

/-- An event whose point `(1, 1/2)` lies exactly on the shared boundary
of `regionA` and `regionB`. -/
def eBoundary : NormalizedEvent := ⟨11, 1 / 2, 1, hailStr, 1000⟩

/-- An event whose point `(5, 5)` intersects neither region. -/
def eOutside : NormalizedEvent := ⟨12, 5, 5, hailStr, 2000⟩

/-- First located Hail event of the aggregation example. -/
def ev1 : NormalizedEvent := ⟨1, 10, 20, hailStr, 1000⟩

/-- Second located Hail event of the aggregation example. -/
def ev2 : NormalizedEvent := ⟨2, 11, 21, hailStr, 3000⟩

/-- Two located events in region 0, both Hail. -/
def exLocated : List LocatedEvent := [⟨ev1, 0⟩, ⟨ev2, 0⟩]

/-- Region 0 has Hail at 500 and Flood at 1500. -/
def totalsAB : List RegionCategoryTotal := [⟨0, hailStr, 500⟩, ⟨0, floodStr, 1500⟩]

/-- The zero-sentinel / single-character guard of line 41 is false on any
string of the form `n ++ [c]` with `n` nonempty and `c` none of the
characters the sentinels end in. -/
lemma expand_value_guard_false (n : List Char) (c : Char) (hn : n ≠ [])
    (hc1 : c ≠ 'n') (hc2 : c ≠ '0') :
    ¬(n ++ [c] = ['n', 'a', 'n'] ∨ n ++ [c] = ['0'] ∨
      n ++ [c] = ['0', '.', '0', '0'] ∨ (n ++ [c]).length = 1) := by
  push_neg
  refine ⟨?_, ?_, ?_, ?_⟩
  · intro h
    have := congrArg List.getLast? h
    simp [List.getLast?_concat] at this
    exact hc1 this
  · intro h
    have := congrArg List.getLast? h
    simp [List.getLast?_concat] at this
    exact hc2 this
  · intro h
    have := congrArg List.getLast? h
    simp [List.getLast?_concat] at this
    exact hc2 this
  · simp [List.length_append]
    intro h
    exact hn h

/-- The unsigned numeral parser only returns non-negative values. -/
lemma pyNum_nonneg (s : List Char) (x : Rat) (h : pyNum s = some x) : 0 ≤ x := by
  rw [pyNum] at h
  split_ifs at h <;> injection h with h' <;> subst h' <;> positivity

/-- `float` returns a non-negative value on any string without a minus
sign. -/
lemma pyFloat_nonneg (s : List Char) (x : Rat) (hm : '-' ∉ s) (h : pyFloat s = some x) :
    0 ≤ x := by
  cases s with
  | nil => simp [pyFloat] at h
  | cons c rest =>
    simp only [pyFloat] at h
    split_ifs at h with h1 h2
    · exact absurd (h1 ▸ List.mem_cons_self c rest) hm
    · exact pyNum_nonneg rest x h
    · exact pyNum_nonneg (c :: rest) x h

/-- Claim C1 (amended): `expand_value` returns 0 on the zero sentinels
`nan`, `0`, `0.00` and on every single-character string.  (The claim
listed the empty string among the zero cases and made the zero cases
exclusive; the counterexample refutes both parts, and this amended
statement keeps everything else.) -/
theorem expand_value_zero_sentinels (v : List Char)
    (h : v = ['n', 'a', 'n'] ∨ v = ['0'] ∨ v = ['0', '.', '0', '0'] ∨ v.length = 1) :
    expand_value v = Except.ok 0 := by
  rw [expand_value, if_pos h]

/-- Witness for C1: the single-character string `5` satisfies the guard
and is mapped to 0. -/
theorem expand_value_zero_sentinels_witness :
    ((['5'] : List Char) = ['n', 'a', 'n'] ∨ (['5'] : List Char) = ['0'] ∨
      (['5'] : List Char) = ['0', '.', '0', '0'] ∨ (['5'] : List Char).length = 1) ∧
    expand_value ['5'] = Except.ok 0 :=
  ⟨by decide, expand_value_zero_sentinels ['5'] (by decide)⟩

/-- Counterexample to C1 as stated: `expand_value` on the empty string
does not return 0 but raises `RuntimeError`, and the zero cases are not
exclusive, since the suffixed zero numeral `0K` also returns 0. -/
theorem expand_value_empty_string_raises :
    expand_value [] = Except.error (PyErr.runtimeError []) ∧
    expand_value ['0', 'K'] = Except.ok 0 := by
  constructor
  · simp [expand_value]
  · simp [expand_value, pyFloat, pyNum, intPart, fracPart, natVal, digVal, isDigits]

/-- Claim C2: on any parsable numeral followed by the scale suffix `K`,
`M` or `B`, `expand_value` returns the numeral's value multiplied by
10^3, 10^6 or 10^9 respectively. -/
theorem expand_value_scale_suffix (n : List Char) (x : Rat) (h : pyFloat n = some x) :
    expand_value (n ++ ['K']) = Except.ok (x * 1000) ∧
    expand_value (n ++ ['M']) = Except.ok (x * 1000000) ∧
    expand_value (n ++ ['B']) = Except.ok (x * 1000000000) := by
  have hn : n ≠ [] := by rintro rfl; simp [pyFloat] at h
  refine ⟨?_, ?_, ?_⟩
  · rw [expand_value, if_neg (expand_value_guard_false n 'K' hn (by decide) (by decide))]
    simp [List.getLast?_concat, List.dropLast_concat, h]
  · rw [expand_value, if_neg (expand_value_guard_false n 'M' hn (by decide) (by decide))]
    simp [List.getLast?_concat, List.dropLast_concat, h]
  · rw [expand_value, if_neg (expand_value_guard_false n 'B' hn (by decide) (by decide))]
    simp [List.getLast?_concat, List.dropLast_concat, h]

/-- Witness for C2: `2.5` parses to 5/2 and `2.5M` expands to
2_500_000. -/
theorem expand_value_scale_suffix_witness :
    pyFloat ['2', '.', '5'] = some (5 / 2) ∧
    expand_value (['2', '.', '5'] ++ ['M']) = Except.ok 2500000 := by
  have h : pyFloat ['2', '.', '5'] = some (5 / 2) := by
    simp [pyFloat, pyNum, intPart, fracPart, natVal, digVal, isDigits]
    norm_num
  refine ⟨h, ?_⟩
  rw [(expand_value_scale_suffix ['2', '.', '5'] (5 / 2) h).2.1]
  norm_num

/-- Claim C3: `expand_value` raises the malformed-magnitude
`RuntimeError` exactly on the inputs that are no zero sentinel, have
length other than one and do not end in `K`, `M` or `B`; in particular
`150` raises it. -/
theorem expand_value_runtime_error_iff :
    (∀ v : List Char,
      expand_value v = Except.error (PyErr.runtimeError v) ↔
        (v ≠ ['n', 'a', 'n'] ∧ v ≠ ['0'] ∧ v ≠ ['0', '.', '0', '0'] ∧ v.length ≠ 1 ∧
         v.getLast? ≠ some 'K' ∧ v.getLast? ≠ some 'M' ∧ v.getLast? ≠ some 'B')) ∧
    expand_value ['1', '5', '0'] = Except.error (PyErr.runtimeError ['1', '5', '0']) := by
  constructor
  · intro v
    rw [expand_value]
    split_ifs with h1 h2 h3 h4
    · constructor
      · intro h
        exact absurd h (by simp)
      · rintro ⟨a, b, c, d, _⟩
        rcases h1 with h | h | h | h
        exacts [absurd h a, absurd h b, absurd h c, absurd h d]
    · cases hp : pyFloat v.dropLast <;> simp [h2]
    · cases hp : pyFloat v.dropLast <;> simp [h3]
    · cases hp : pyFloat v.dropLast <;> simp [h4]
    · push_neg at h1
      simp [h1.1, h1.2.1, h1.2.2.1, h1.2.2.2, h2, h3, h4]
  · simp [expand_value]

/-- Witness for C3: the two-character unsuffixed numeral `99` raises the
malformed-magnitude error, through the characterization. -/
theorem expand_value_runtime_error_iff_witness :
    expand_value ['9', '9'] = Except.error (PyErr.runtimeError ['9', '9']) :=
  (expand_value_runtime_error_iff.1 ['9', '9']).mpr (by decide)

/-- Claim C4 (amended): every value `expand_value` returns on an input
containing no minus sign is non-negative.  (The claim asserted this for
every input string; the counterexample `-5K` shows a negative return,
and this amended statement restricts to unsigned inputs, the format of
the damage-magnitude feed.) -/
theorem expand_value_nonneg (v : List Char) (x : Rat) (hm : '-' ∉ v)
    (h : expand_value v = Except.ok x) : 0 ≤ x := by
  have hd : '-' ∉ v.dropLast := fun hmem => hm (List.dropLast_subset v hmem)
  rw [expand_value] at h
  split_ifs at h with h1 h2 h3 h4
  · injection h with h'
    subst h'
    exact le_refl 0
  · cases hp : pyFloat v.dropLast with
    | none => rw [hp] at h; exact Except.noConfusion h
    | some y =>
      rw [hp] at h
      injection h with h'
      subst h'
      have := pyFloat_nonneg v.dropLast y hd hp
      positivity
  · cases hp : pyFloat v.dropLast with
    | none => rw [hp] at h; exact Except.noConfusion h
    | some y =>
      rw [hp] at h
      injection h with h'
      subst h'
      have := pyFloat_nonneg v.dropLast y hd hp
      positivity
  · cases hp : pyFloat v.dropLast with
    | none => rw [hp] at h; exact Except.noConfusion h
    | some y =>
      rw [hp] at h
      injection h with h'
      subst h'
      have := pyFloat_nonneg v.dropLast y hd hp
      positivity

/-- Witness for C4: `3K` has no minus sign, expands to 3000, and 3000 is
non-negative by the theorem. -/
theorem expand_value_nonneg_witness :
    ('-' ∉ (['3', 'K'] : List Char)) ∧ expand_value ['3', 'K'] = Except.ok 3000 ∧
      (0 : Rat) ≤ 3000 := by
  have h : expand_value ['3', 'K'] = Except.ok 3000 := by
    simp [expand_value, pyFloat, pyNum, intPart, fracPart, natVal, digVal, isDigits]
    norm_num
  exact ⟨by decide, h, expand_value_nonneg ['3', 'K'] 3000 (by decide) h⟩

/-- Counterexample to C4 as stated: the signed magnitude string `-5K`
does not raise, and `expand_value` returns the negative value -5000. -/
theorem expand_value_negative_output :
    expand_value ['-', '5', 'K'] = Except.ok (-5000) := by
  simp [expand_value, pyFloat, pyNum, intPart, fracPart, natVal, digVal, isDigits]
  norm_num

/-- Claim C9: a bare scale suffix `K`, `M` or `B` is a single-character
string, so `expand_value` returns 0 on it rather than raising. -/
theorem expand_value_bare_suffix_zero :
    expand_value ['K'] = Except.ok 0 ∧ expand_value ['M'] = Except.ok 0 ∧
      expand_value ['B'] = Except.ok 0 := by
  refine ⟨?_, ?_, ?_⟩ <;> simp [expand_value]

/-- Claim C10: zero detection is by exact string match, so the
zero-valued numeral `0.0`, which is none of the three sentinels and
longer than one character, raises the malformed-magnitude error instead
of returning 0. -/
theorem expand_value_zero_string_match_only :
    expand_value ['0', '.', '0'] = Except.error (PyErr.runtimeError ['0', '.', '0']) := by
  simp [expand_value]

/-- Membership characterization of the inner join `merge`. -/
lemma merge_mem_iff (pts : List EventLocation) (details : List EventDetail)
    (j : JoinedEvent) :
    j ∈ merge pts details ↔
      ∃ p ∈ pts, ∃ d ∈ details, p.event_id = d.event_id ∧
        j = ⟨p, d.event_type, d.damage_property⟩ := by
  simp only [merge, List.mem_flatMap, List.mem_map, List.mem_filter, decide_eq_true_eq]
  constructor
  · rintro ⟨p, hp, d, ⟨hd, he⟩, rfl⟩
    exact ⟨p, hp, d, hd, he.symm, rfl⟩
  · rintro ⟨p, hp, d, hd, he, rfl⟩
    exact ⟨p, hp, d, ⟨hd, he.symm⟩, rfl⟩

/-- Membership characterization of the spatial join `sjoin`. -/
lemma sjoin_mem_iff (events : List NormalizedEvent) (regions : List RegionPolygon)
    (l : LocatedEvent) :
    l ∈ sjoin events regions ↔
      ∃ e ∈ events, ∃ r ∈ regions, intersects r.geometry (eventPt e) ∧ l = ⟨e, r.id⟩ := by
  simp only [sjoin, List.mem_flatMap, List.mem_map, List.mem_filter, decide_eq_true_eq]
  constructor
  · rintro ⟨e, he, r, ⟨hr, hi⟩, rfl⟩
    exact ⟨e, he, r, hr, hi, rfl⟩
  · rintro ⟨e, he, r, hr, hi, rfl⟩
    exact ⟨e, he, r, ⟨hr, hi⟩, rfl⟩

/-- With duplicate-free events and duplicate-free region ids, the
spatial join emits no duplicate rows, so each satisfying (event, region)
pair appears exactly once. -/
lemma sjoin_nodup (events : List NormalizedEvent) (regions : List RegionPolygon)
    (he : events.Nodup) (hr : (regions.map RegionPolygon.id).Nodup) :
    (sjoin events regions).Nodup := by
  rw [sjoin, List.nodup_flatMap]
  constructor
  · intro e _
    have h1 : ((regions.filter fun r =>
        decide (intersects r.geometry (eventPt e))).map RegionPolygon.id).Nodup :=
      hr.sublist (List.Sublist.map _ (List.filter_sublist _))
    have h2 := h1.map (f := fun rid => (⟨e, rid⟩ : LocatedEvent))
      (fun a b hab => by injection hab)
    rwa [List.map_map] at h2
  · refine (List.Pairwise.imp ?_ he)
    intro e1 e2 hne l hl1 hl2
    simp only [List.mem_map] at hl1 hl2
    rcases hl1 with ⟨r1, _, rfl⟩
    rcases hl2 with ⟨r2, _, h12⟩
    exact hne (congrArg LocatedEvent.event h12).symm

/-- The boundary point `(1, 1/2)` lies on `regionA`'s edge from `(1,0)`
to `(1,1)`. -/
lemma intersects_A_eBoundary : intersects regionA.geometry (eventPt eBoundary) := by
  left
  refine ⟨((1, 0), (1, 1)), ?_, ?_⟩
  · simp [edges, regionA, List.rotate]
  · norm_num [onSeg, cross, eventPt, eBoundary]

/-- The boundary point `(1, 1/2)` lies on `regionB`'s edge from `(1,1)`
to `(1,0)`. -/
lemma intersects_B_eBoundary : intersects regionB.geometry (eventPt eBoundary) := by
  left
  refine ⟨((1, 1), (1, 0)), ?_, ?_⟩
  · simp [edges, regionB, List.rotate]
  · norm_num [onSeg, cross, eventPt, eBoundary]

/-- The far-away point `(5, 5)` intersects `regionA` in no way. -/
lemma not_intersects_A_eOutside : ¬ intersects regionA.geometry (eventPt eOutside) := by
  rintro (⟨e, he, hs⟩ | h)
  · simp [edges, regionA, List.rotate] at he
    rcases he with he | he | he | he <;> subst he <;>
      norm_num [onSeg, cross, eventPt, eOutside] at hs
  · have h0 : (edges regionA.geometry).countP
        (fun e => decide (raycross (eventPt eOutside) e)) = 0 := by
      rw [List.countP_eq_zero]
      intro e he
      simp only [decide_eq_true_eq]
      simp [edges, regionA, List.rotate] at he
      rcases he with he | he | he | he <;> subst he <;>
        norm_num [raycross, eventPt, eOutside]
    rw [inInterior, h0] at h
    norm_num at h

/-- The far-away point `(5, 5)` intersects `regionB` in no way. -/
lemma not_intersects_B_eOutside : ¬ intersects regionB.geometry (eventPt eOutside) := by
  rintro (⟨e, he, hs⟩ | h)
  · simp [edges, regionB, List.rotate] at he
    rcases he with he | he | he | he <;> subst he <;>
      norm_num [onSeg, cross, eventPt, eOutside] at hs
  · have h0 : (edges regionB.geometry).countP
        (fun e => decide (raycross (eventPt eOutside) e)) = 0 := by
      rw [List.countP_eq_zero]
      intro e he
      simp only [decide_eq_true_eq]
      simp [edges, regionB, List.rotate] at he
      rcases he with he | he | he | he <;> subst he <;>
        norm_num [raycross, eventPt, eOutside]
    rw [inInterior, h0] at h
    norm_num at h

/-- The keys of the aggregated rows are exactly the distinct keys of the
input. -/
lemma aggregate_keys (located : List LocatedEvent) :
    (aggregate located).map rctKey = (located.map locKey).dedup := by
  rw [aggregate, List.map_map]
  have h : (rctKey ∘ fun k : Nat × List Char => (⟨k.1, k.2, groupMag located k⟩ :
      RegionCategoryTotal)) = id := by
    funext k
    simp [rctKey]
  rw [h, List.map_id]

/-- A key has an aggregated row exactly when some located event carries
it. -/
lemma aggregate_mem_key_iff (located : List LocatedEvent) (k : Nat × List Char) :
    (∃ row ∈ aggregate located, rctKey row = k) ↔ ∃ l ∈ located, locKey l = k := by
  constructor
  · rintro ⟨row, hrow, rfl⟩
    have h : rctKey row ∈ (aggregate located).map rctKey := List.mem_map_of_mem _ hrow
    rw [aggregate_keys, List.mem_dedup] at h
    simpa using h
  · rintro ⟨l, hl, rfl⟩
    have h : locKey l ∈ (aggregate located).map rctKey := by
      rw [aggregate_keys, List.mem_dedup]
      exact List.mem_map_of_mem _ hl
    simpa [List.mem_map] using h

/-- Every aggregated row's magnitude is its group's sum. -/
lemma aggregate_mag (located : List LocatedEvent) (row : RegionCategoryTotal)
    (h : row ∈ aggregate located) : row.mag = groupMag located (rctKey row) := by
  rw [aggregate] at h
  simp only [List.mem_map] at h
  rcases h with ⟨k, _, rfl⟩
  simp [rctKey]

/-- The fold of `pickMax` returns its seed or a list element. -/
lemma pickMax_mem (l : List RegionCategoryTotal) (b : RegionCategoryTotal) :
    pickMax b l = b ∨ pickMax b l ∈ l := by
  induction l generalizing b with
  | nil => exact Or.inl rfl
  | cons r rest ih =>
    rw [pickMax]
    rcases ih (if b.mag < r.mag then r else b) with h | h
    · rw [h]
      split_ifs with hc
      · exact Or.inr (List.mem_cons_self _ _)
      · exact Or.inl rfl
    · exact Or.inr (List.mem_cons_of_mem _ h)

/-- The fold of `pickMax` dominates its seed and every list element. -/
lemma pickMax_le (l : List RegionCategoryTotal) (b : RegionCategoryTotal) :
    b.mag ≤ (pickMax b l).mag ∧ ∀ r ∈ l, r.mag ≤ (pickMax b l).mag := by
  induction l generalizing b with
  | nil => exact ⟨le_refl _, by simp⟩
  | cons r rest ih =>
    rw [pickMax]
    rcases ih (if b.mag < r.mag then r else b) with ⟨h1, h2⟩
    constructor
    · refine le_trans ?_ h1
      split_ifs with hc
      · exact le_of_lt hc
      · exact le_refl _
    · intro r' hr'
      rcases List.mem_cons.mp hr' with rfl | hr'
      · refine le_trans ?_ h1
        split_ifs with hc
        · exact le_refl _
        · exact le_of_not_lt hc
      · exact h2 r' hr'

/-- On a nonempty list `firstMax` returns a member dominating the whole
list. -/
lemma firstMax_eq_some (l : List RegionCategoryTotal) (hl : l ≠ []) :
    ∃ b, firstMax l = some b ∧ b ∈ l ∧ ∀ r ∈ l, r.mag ≤ b.mag := by
  cases l with
  | nil => exact absurd rfl hl
  | cons r rest =>
    refine ⟨pickMax r rest, rfl, ?_, ?_⟩
    · rcases pickMax_mem rest r with h | h
      · rw [h]; exact List.mem_cons_self _ _
      · exact List.mem_cons_of_mem _ h
    · intro r' hr'
      rcases List.mem_cons.mp hr' with rfl | hr'
      · exact (pickMax_le rest r').1
      · exact (pickMax_le rest r).2 r' hr'

/-- The region ids of the dominant rows are exactly the distinct region
ids of the totals. -/
lemma select_dominant_ids (totals : List RegionCategoryTotal) :
    (select_dominant totals).map RegionCategoryTotal.region_id =
      (totals.map RegionCategoryTotal.region_id).dedup := by
  rw [select_dominant]
  have key : ∀ rids : List Nat,
      (∀ rid ∈ rids, rid ∈ totals.map RegionCategoryTotal.region_id) →
      ((rids.filterMap fun rid =>
        firstMax (totals.filter fun r => decide (r.region_id = rid))).map
          RegionCategoryTotal.region_id) = rids := by
    intro rids h
    induction rids with
    | nil => rfl
    | cons rid rest ih =>
      have hmem : rid ∈ totals.map RegionCategoryTotal.region_id :=
        h rid (List.mem_cons_self _ _)
      rcases List.mem_map.mp hmem with ⟨r0, hr0, hid⟩
      have hne : (totals.filter fun r => decide (r.region_id = rid)) ≠ [] := by
        intro hnil
        have hr : r0 ∈ totals.filter fun r => decide (r.region_id = rid) :=
          List.mem_filter.mpr ⟨hr0, by simp [hid]⟩
        rw [hnil] at hr
        exact List.not_mem_nil _ hr
      rcases firstMax_eq_some _ hne with ⟨b, hb, hbmem, _⟩
      have hbid : b.region_id = rid := by
        have hf := List.mem_filter.mp hbmem
        simpa using hf.2
      rw [List.filterMap_cons, hb]
      simp only [List.map_cons, hbid]
      rw [ih (fun x hx => h x (List.mem_cons_of_mem _ hx))]
  exact key _ (fun rid hrid => List.mem_dedup.mp hrid)

/-- Every dominant row is one of the totals and has the maximal
magnitude within its region. -/
lemma select_dominant_max (totals : List RegionCategoryTotal)
    (row : RegionCategoryTotal) (h : row ∈ select_dominant totals) :
    row ∈ totals ∧ ∀ r ∈ totals, r.region_id = row.region_id → r.mag ≤ row.mag := by
  rw [select_dominant] at h
  rcases List.mem_filterMap.mp h with ⟨rid, _, hfm⟩
  cases hfl : totals.filter fun r => decide (r.region_id = rid) with
  | nil => rw [hfl] at hfm; exact absurd hfm (by simp [firstMax])
  | cons r0 rest =>
    rcases firstMax_eq_some (totals.filter fun r => decide (r.region_id = rid))
      (by rw [hfl]; exact List.cons_ne_nil _ _) with ⟨b, hb, hbmem, hbmax⟩
    rw [hfm] at hb
    injection hb with hb
    subst hb
    have hmemf := List.mem_filter.mp hbmem
    have hbid : row.region_id = rid := by simpa using hmemf.2
    refine ⟨hmemf.1, ?_⟩
    intro r hr hrid
    exact hbmax r (List.mem_filter.mpr ⟨hr, by simp [hrid, hbid]⟩)

/-- Claim C5: the event join is an inner join keyed on `event_id` — a
joined row exists exactly for each cross pairing of a location row and a
detail row sharing an `event_id`, an id present on one side only yields
nothing, and on the worked example the join holds exactly the one row of
event 1. -/
theorem merge_inner_join_on_event_id :
    (∀ (pts : List EventLocation) (details : List EventDetail) (j : JoinedEvent),
      j ∈ merge pts details ↔
        ∃ p ∈ pts, ∃ d ∈ details, p.event_id = d.event_id ∧
          j = ⟨p, d.event_type, d.damage_property⟩) ∧
    merge [⟨1, 10, 20⟩] [⟨1, hailStr, ['1', 'K']⟩, ⟨2, floodStr, ['2', 'K']⟩] =
      [⟨⟨1, 10, 20⟩, hailStr, ['1', 'K']⟩] :=
  ⟨merge_mem_iff, rfl⟩

/-- Witness for C5: the joined row of event 1 is produced from the
matching location and detail rows. -/
theorem merge_inner_join_on_event_id_witness :
    (⟨⟨1, 10, 20⟩, hailStr, ['1', 'K']⟩ : JoinedEvent) ∈
      merge [⟨1, 10, 20⟩] [⟨1, hailStr, ['1', 'K']⟩, ⟨2, floodStr, ['2', 'K']⟩] :=
  (merge_inner_join_on_event_id.1 _ _ _).mpr
    ⟨⟨1, 10, 20⟩, by simp, ⟨1, hailStr, ['1', 'K']⟩, by simp, rfl, rfl⟩

/-- Claim C6: the spatial locator is an inner spatial join under the
boundary-inclusive `intersects` predicate — a located row exists exactly
for each (event, region) pair whose geometries intersect, each such pair
yields one row (no duplicates for duplicate-free inputs), a point on the
shared boundary of two adjacent regions yields two rows, and an event
intersecting no region yields none. -/
theorem sjoin_intersects_inner_join :
    (∀ (events : List NormalizedEvent) (regions : List RegionPolygon) (l : LocatedEvent),
      l ∈ sjoin events regions ↔
        ∃ e ∈ events, ∃ r ∈ regions, intersects r.geometry (eventPt e) ∧ l = ⟨e, r.id⟩) ∧
    (∀ (events : List NormalizedEvent) (regions : List RegionPolygon),
      events.Nodup → (regions.map RegionPolygon.id).Nodup → (sjoin events regions).Nodup) ∧
    sjoin [eBoundary] [regionA, regionB] = [⟨eBoundary, 0⟩, ⟨eBoundary, 1⟩] ∧
    sjoin [eOutside] [regionA, regionB] = [] := by
  refine ⟨sjoin_mem_iff, sjoin_nodup, ?_, ?_⟩
  · have hA := decide_eq_true intersects_A_eBoundary
    have hB := decide_eq_true intersects_B_eBoundary
    simp only [sjoin, List.flatMap_cons, List.flatMap_nil, List.append_nil,
      List.filter_cons, List.filter_nil, hA, hB, if_true, List.map_cons, List.map_nil]
    simp [regionA, regionB]
  · have hA := decide_eq_false not_intersects_A_eOutside
    have hB := decide_eq_false not_intersects_B_eOutside
    simp only [sjoin, List.flatMap_cons, List.flatMap_nil, List.append_nil,
      List.filter_cons, List.filter_nil, hA, hB, List.map_nil]
    simp

/-- Witness for C6: on the concrete boundary example the inputs are
duplicate-free and the join output is duplicate-free. -/
theorem sjoin_intersects_inner_join_witness :
    ([eBoundary] : List NormalizedEvent).Nodup ∧
    (([regionA, regionB] : List RegionPolygon).map RegionPolygon.id).Nodup ∧
    (sjoin [eBoundary] [regionA, regionB]).Nodup := by
  have h1 : ([eBoundary] : List NormalizedEvent).Nodup := List.nodup_singleton _
  have h2 : (([regionA, regionB] : List RegionPolygon).map RegionPolygon.id).Nodup := by
    simp [regionA, regionB]
  exact ⟨h1, h2, sjoin_intersects_inner_join.2.1 _ _ h1 h2⟩

/-- Claim C7: the aggregator emits one row per distinct
`(region_id, event_type)` key present among the located events — a key
has a row exactly when some located event carries it, keys are not
repeated, each row's `mag` is the sum of `damage_property` over the
events sharing its key, and the two 1000- and 3000-valued Hail events of
region 0 aggregate to the single row `(0, Hail, 4000)`. -/
theorem aggregate_group_sum :
    (∀ (located : List LocatedEvent) (k : Nat × List Char),
      (∃ row ∈ aggregate located, rctKey row = k) ↔ ∃ l ∈ located, locKey l = k) ∧
    (∀ located : List LocatedEvent, ((aggregate located).map rctKey).Nodup) ∧
    (∀ (located : List LocatedEvent) (row : RegionCategoryTotal),
      row ∈ aggregate located →
        row.mag = ((located.filter fun l => decide (locKey l = rctKey row)).map
          fun l => l.event.damage_property).sum) ∧
    aggregate exLocated = [⟨0, hailStr, 4000⟩] := by
  refine ⟨aggregate_mem_key_iff, ?_, aggregate_mag, ?_⟩
  · intro located
    rw [aggregate_keys]
    exact List.nodup_dedup _
  · have hd : (exLocated.map locKey).dedup = [(0, hailStr)] := by
      simp [exLocated, locKey, ev1, ev2, List.dedup_cons_of_mem]
    rw [aggregate, hd]
    simp [groupMag, exLocated, locKey, ev1, ev2]
    norm_num

/-- Witness for C7: the key `(0, Hail)` carried by the first located
event has an aggregated row. -/
theorem aggregate_group_sum_witness :
    ∃ row ∈ aggregate exLocated, rctKey row = (0, hailStr) :=
  (aggregate_group_sum.1 exLocated (0, hailStr)).mpr
    ⟨⟨ev1, 0⟩, by simp [exLocated], by simp [locKey, ev1]⟩

/-- Claim C8: the dominant-category selector outputs exactly one row per
region id present among the totals (so none for an absent region), every
output row is one of that region's totals with the maximal `mag`, and on
the worked example region 0 with Hail at 500 and Flood at 1500 yields
exactly `(0, Flood, 1500)`. -/
theorem select_dominant_picks_max :
    (∀ totals : List RegionCategoryTotal,
      (select_dominant totals).map RegionCategoryTotal.region_id =
        (totals.map RegionCategoryTotal.region_id).dedup) ∧
    (∀ (totals : List RegionCategoryTotal) (row : RegionCategoryTotal),
      row ∈ select_dominant totals →
        row ∈ totals ∧ ∀ r ∈ totals, r.region_id = row.region_id → r.mag ≤ row.mag) ∧
    select_dominant totalsAB = [⟨0, floodStr, 1500⟩] := by
  refine ⟨select_dominant_ids, select_dominant_max, ?_⟩
  simp [select_dominant, totalsAB, firstMax, pickMax, List.dedup]
  norm_num [pickMax]

/-- Witness for C8: the selected row `(0, Flood, 1500)` belongs to the
totals of region 0 and dominates them. -/
theorem select_dominant_picks_max_witness :
    (⟨0, floodStr, 1500⟩ : RegionCategoryTotal) ∈ totalsAB ∧
      ∀ r ∈ totalsAB,
        r.region_id = (⟨0, floodStr, 1500⟩ : RegionCategoryTotal).region_id →
          r.mag ≤ (⟨0, floodStr, 1500⟩ : RegionCategoryTotal).mag := by
  have hmem : (⟨0, floodStr, 1500⟩ : RegionCategoryTotal) ∈ select_dominant totalsAB := by
    have he : select_dominant totalsAB = [⟨0, floodStr, 1500⟩] := by
      simp [select_dominant, totalsAB, firstMax, pickMax, List.dedup]
      norm_num [pickMax]
    rw [he]
    exact List.mem_singleton.mpr rfl
  exact select_dominant_picks_max.2.1 totalsAB _ hmem
